import Mathlib

/-!
Verification of the market-cap pipeline in `marketcapmanual.py`.

This file is a shallow embedding of the data pipeline of
`src/marketcapmanual.py`:

* `clean_data` (source lines 72-83): strip the pasted block, parse it as
  tab-separated `Fecha` / `AccionesEnCirculacion` columns, coerce the date
  column (`errors='coerce'`, unparseable dates become `NaT`), drop rows with
  `NaT` dates, and multiply the share column by 1,000,000.  The whole body is
  wrapped in a `try`/`except` that returns an empty frame on any exception.
* daily resampling (source lines 88-91): `set_index('Fecha')`,
  `resample('D').interpolate(method='linear')`, then `ffill()`.
* the merge (source lines 119-124): a left join of the fetched price series
  with the daily share series on the date index, a forward fill of the share
  column, and the element-wise product `Precio * AccionesEnCirculacion`.

Modelling choices:

* calendar dates are embedded as rata-die day numbers (`Nat`), so that
  consecutive calendar days are consecutive numbers;
* numeric values are embedded as `ℚ`;
* a pandas cell of the share column is a `Cell`: a number, a string (pandas
  keeps a whole column as Python strings when one of its fields fails numeric
  inference), or `NaN`;
* the absence of a value (`NaN`/`NaT`) is `Option.none` where it matters;
* `pd.read_csv(..., sep='\t', names=[...])` is modelled on the line level:
  blank lines are skipped, each remaining line is split on tabs, and the last
  two fields of a line feed the two named columns (pandas uses surplus
  leading fields as the index), a missing second field is `NaN`;
* `pd.to_datetime(..., errors='coerce')` is modelled for the `YYYY-MM-DD`
  input format documented by the script (other strings coerce to `NaT`);
* `resample('D').interpolate(method='linear')` is modelled by generating one
  slot per day from the minimum to the maximum date of the (sorted) index
  and filling each slot either with the sample value at that date or with
  the linear interpolant between the nearest samples on either side, which
  is what position-based linear interpolation does on a daily grid.
-/

/-! ## Text primitives

The Python string operations the script relies on (`str.strip`, splitting
on a separator) are modelled on the character list of a string. -/

/-- Split a character list on a separator character (`str.split(sep)` /
the per-line and per-field tokenization of `read_csv`): splitting the
empty list yields one empty field, and separators delimit possibly empty
fields. -/
def mySplit (sep : Char) : List Char → List (List Char)
  | [] => [[]]
  | c :: cs =>
    let r := mySplit sep cs
    if c = sep then [] :: r
    else
      match r with
      | [] => [[c]]
      | g :: gs => (c :: g) :: gs

/-- Python `str.strip()`: drop leading and trailing whitespace. -/
def myTrim (cs : List Char) : List Char :=
  ((cs.dropWhile Char.isWhitespace).reverse.dropWhile Char.isWhitespace).reverse

/-- Python `str.strip()` on a string. -/
def strip (s : String) : String :=
  String.mk (myTrim s.data)

/-! ## Calendar dates (`pd.to_datetime` for the `YYYY-MM-DD` format) -/

/-- Gregorian leap-year test. -/
def isLeapYear (y : Nat) : Bool :=
  (y % 4 == 0 && y % 100 != 0) || y % 400 == 0

/-- Number of days of month `m` (1-based) in year `y`. -/
def monthLength (y m : Nat) : Nat :=
  if m = 2 then (if isLeapYear y then 29 else 28)
  else if m = 4 ∨ m = 6 ∨ m = 9 ∨ m = 11 then 30 else 31

/-- Days in year `y` before the first day of month `m` (1-based). -/
def monthOffset (y m : Nat) : Nat :=
  (List.range (m - 1)).foldl (fun acc i => acc + monthLength y (i + 1)) 0

/-- Rata-die day number of the calendar date `y-m-d`: consecutive calendar
days map to consecutive numbers. -/
def rataDie (y m d : Nat) : Nat :=
  365 * (y - 1) + (y - 1) / 4 - (y - 1) / 100 + (y - 1) / 400 + monthOffset y m + d

/-- The value of a decimal digit character. -/
def digitVal (c : Char) : Option Nat :=
  if c = '0' then some 0
  else if c = '1' then some 1
  else if c = '2' then some 2
  else if c = '3' then some 3
  else if c = '4' then some 4
  else if c = '5' then some 5
  else if c = '6' then some 6
  else if c = '7' then some 7
  else if c = '8' then some 8
  else if c = '9' then some 9
  else none

/-- Parse a decimal digit sequence (at least one character, digits only). -/
def parseNatChars (cs : List Char) : Option Nat :=
  if cs.isEmpty then none
  else
    cs.foldl
      (fun acc c =>
        match acc, digitVal c with
        | some n, some d => some (n * 10 + d)
        | _, _ => none)
      (some 0)

/-- Model of `pd.to_datetime(_, errors='coerce')` on one field, for the `YYYY-MM-DD`
format the script documents; anything else coerces to `NaT` (`none`).
Returns the rata-die day number. -/
def parseDate (s : String) : Option Nat :=
  match mySplit '-' (myTrim s.data) with
  | [ys, ms, ds] =>
    match parseNatChars ys, parseNatChars ms, parseNatChars ds with
    | some y, some m, some d =>
      if 1 ≤ y ∧ 1 ≤ m ∧ m ≤ 12 ∧ 1 ≤ d ∧ d ≤ monthLength y m then
        some (rataDie y m d)
      else none
    | _, _, _ => none
  | _ => none

/-! ## Numeric fields (`read_csv` column type inference) -/

/-- Strip an optional leading minus sign. -/
def splitSign : List Char → Bool × List Char
  | '-' :: r => (true, r)
  | r => (false, r)

/-- Numeric inference for one field: optional sign, an integer part, and an
optional fractional part, as pandas reads plain decimal numbers. -/
def parseNum (s : String) : Option ℚ :=
  let sg := splitSign (myTrim s.data)
  match mySplit '.' sg.2 with
  | [ip] => (parseNatChars ip).map (fun n => if sg.1 then -(n : ℚ) else (n : ℚ))
  | [ip, fp] =>
    match parseNatChars ip, parseNatChars fp with
    | some a, some b =>
      let q : ℚ := (a : ℚ) + (b : ℚ) / ((10 : ℚ) ^ fp.length)
      some (if sg.1 then -q else q)
    | _, _ => none
  | _ => none

/-- One cell of the `AccionesEnCirculacion` column: a parsed number, a raw
Python string (the whole column stays `object` when one field fails numeric
inference), or `NaN`. -/
inductive Cell where
  | num (q : ℚ)
  | str (s : String)
  | nan
deriving DecidableEq, Repr

/-- Python string repetition `s * n`, which is what `'abc' * 1_000_000`
evaluates to when the share column holds strings. -/
def pyStrMul (s : String) (n : Nat) : String :=
  String.join (List.replicate n s)

/-- The scaling `df['AccionesEnCirculacion'] * 1_000_000` (source line 79) on one cell:
numbers are scaled, `NaN` stays `NaN`, and Python strings are repeated. -/
def scaleCell (c : Cell) : Cell :=
  match c with
  | Cell.num q => Cell.num (q * 1000000)
  | Cell.str s => Cell.str (pyStrMul s 1000000)
  | Cell.nan => Cell.nan

/-- Classification of a cell by its constructor. -/
inductive CellKind where
  | numK
  | strK
  | nanK
deriving DecidableEq, Repr

/-- The kind of a cell. -/
def cellKind (c : Cell) : CellKind :=
  match c with
  | Cell.num _ => CellKind.numK
  | Cell.str _ => CellKind.strK
  | Cell.nan => CellKind.nanK

/-! ## `read_csv` and `clean_data` (source lines 72-83) -/

/-- One raw line after tokenizing on tabs: the `Fecha` field and the
optional `AccionesEnCirculacion` field. -/
structure RawRow where
  fecha : String
  acciones : Option String
deriving DecidableEq

/-- Tokenize one line on tabs.  With explicit `names` pandas assigns the
last fields of a line to the named columns (surplus leading fields become
the index); a line without a tab yields `NaN` for the second column. -/
def rowOfLine (line : List Char) : RawRow :=
  match (mySplit '\t' line).reverse with
  | [] => ⟨String.mk line, none⟩
  | [f] => ⟨String.mk f, none⟩
  | a :: f :: _ => ⟨String.mk f, some (String.mk a)⟩

/-- Model of `pd.read_csv(StringIO(data), sep='\t', names=['Fecha',
'AccionesEnCirculacion'])`: raises `EmptyDataError` on an empty input,
skips blank lines, and tokenizes the rest. -/
def readCsv (s : String) : Except String (List RawRow) :=
  if s.data.isEmpty then Except.error "EmptyDataError: no columns to parse from file"
  else Except.ok (((mySplit '\n' s.data).filter (fun l => !l.isEmpty)).map rowOfLine)

/-- A field counts toward a numeric column when it is missing, blank
(pandas reads it as `NaN`) or passes numeric inference. -/
def fieldIsNumericOrNA (f : Option String) : Bool :=
  match f with
  | none => true
  | some s => (myTrim s.data).isEmpty || (parseNum s).isSome

/-- pandas infers the dtype of a `read_csv` column from every field of the
column: the column is numeric only when every field is. -/
def colIsNumeric (rows : List RawRow) : Bool :=
  rows.all (fun r => fieldIsNumericOrNA r.acciones)

/-- The cell stored for one share field, given the inferred column dtype:
on a numeric column fields parse to numbers, on an `object` column the raw
strings are kept; missing or blank fields are `NaN` either way. -/
def accionesCell (numeric : Bool) (f : Option String) : Cell :=
  match f with
  | none => Cell.nan
  | some s =>
    if (myTrim s.data).isEmpty then Cell.nan
    else if numeric then
      match parseNum s with
      | some q => Cell.num q
      | none => Cell.nan
    else Cell.str s

/-- The body of `clean_data` (source lines 73-80) without the `except`
clause: strip, `read_csv`, `to_datetime(errors='coerce')` on `Fecha`,
`dropna(subset=['Fecha'])`, and the `* 1_000_000` scaling. -/
def cleanDataCore (s : String) : Except String (List (Nat × Cell)) :=
  match readCsv (strip s) with
  | Except.error e => Except.error e
  | Except.ok rows =>
    let numeric := colIsNumeric rows
    let dated := rows.map (fun r => (parseDate r.fecha, accionesCell numeric r.acciones))
    let kept := dated.filterMap
      (fun p => match p.1 with | some d => some (d, p.2) | none => none)
    Except.ok (kept.map (fun p => (p.1, scaleCell p.2)))

/-- The function `clean_data` (source lines 72-83): the catch-all `except` returns an
empty frame, so the function is total. -/
def clean_data (s : String) : List (Nat × Cell) :=
  match cleanDataCore s with
  | Except.ok r => r
  | Except.error _ => []

/-- The guard `if not df_shares.empty` (source line 88): the script builds
the daily series, fetches prices, merges and plots only when `clean_data`
returned a non-empty frame. -/
def proceedToPlot (df : List (Nat × Cell)) : Bool :=
  !df.isEmpty

/-- Extract the numeric samples of a cleaned frame; `none` when some cell
is not a number. -/
def numSamples : List (Nat × Cell) → Option (List (Nat × ℚ))
  | [] => some []
  | p :: t =>
    match p.2, numSamples t with
    | Cell.num q, some r => some ((p.1, q) :: r)
    | _, _ => none

/-! ## Daily resampling and interpolation (source lines 88-91) -/

/-- Order on samples used for sorting the date index. -/
def dateLE (a b : Nat × ℚ) : Prop := a.1 ≤ b.1

instance : DecidableRel dateLE := fun a b => Nat.decLe a.1 b.1

instance : IsTotal (Nat × ℚ) dateLE := ⟨fun a b => Nat.le_total a.1 b.1⟩

instance : IsTrans (Nat × ℚ) dateLE := ⟨fun _ _ _ => Nat.le_trans⟩

/-- Strict order on samples by date. -/
def dateLT (a b : Nat × ℚ) : Prop := a.1 < b.1

instance : IsAntisymm (Nat × ℚ) dateLT :=
  ⟨fun _ _ h h' => absurd (Nat.lt_trans h h') (Nat.lt_irrefl _)⟩

/-- pandas `resample` works on the date index sorted ascending (the pasted block
may list quarters in any order, e.g. the script's example data is
descending). -/
def sortSamples (l : List (Nat × ℚ)) : List (Nat × ℚ) :=
  List.insertionSort dateLE l

/-- Look a date up in an association list keyed by day number. -/
def seriesLookup {α : Type} : List (Nat × α) → Nat → Option α
  | [], _ => none
  | p :: t, d => if p.1 = d then some p.2 else seriesLookup t d

/-- The nearest sample strictly before day `d` (the last one, when the
sample list is sorted ascending). -/
def prevSample (t : List (Nat × ℚ)) (d : Nat) : Option (Nat × ℚ) :=
  (t.filter (fun p => p.1 < d)).getLast?

/-- The nearest sample strictly after day `d` (the first one, when the
sample list is sorted ascending). -/
def nextSample (t : List (Nat × ℚ)) (d : Nat) : Option (Nat × ℚ) :=
  (t.filter (fun p => d < p.1)).head?

/-- The value of the daily grid slot at day `d` after
`interpolate(method='linear')`: a known date keeps its sample value, a gap
day between two known dates gets the linear interpolant by elapsed time,
and a day with a known neighbour on only one side stays `NaN` at this
stage. -/
def interpValue (t : List (Nat × ℚ)) (d : Nat) : Option ℚ :=
  match seriesLookup t d with
  | some v => some v
  | none =>
    match prevSample t d, nextSample t d with
    | some p, some q =>
      some (p.2 + (q.2 - p.2) * ((d : ℚ) - (p.1 : ℚ)) / ((q.1 : ℚ) - (p.1 : ℚ)))
    | _, _ => none

/-- Forward fill `ffill()` (source line 91): replace each missing value by the last
value seen above it. -/
def ffillAux {α : Type} : Option α → List (Nat × Option α) → List (Nat × Option α)
  | _, [] => []
  | acc, p :: t =>
    match p.2 with
    | some v => (p.1, some v) :: ffillAux (some v) t
    | none => (p.1, acc) :: ffillAux acc t

/-- The resampling `df_shares.resample('D').interpolate(method='linear')` followed by
`.ffill()` (source lines 90-91): one slot per calendar day from the
minimum to the maximum date of the index, interpolated linearly and then
forward-filled. -/
def df_shares_diario (samples : List (Nat × ℚ)) : List (Nat × Option ℚ) :=
  let t := sortSamples samples
  match t.head?, t.getLast? with
  | some lo, some hi =>
    ffillAux none ((List.range' lo.1 (hi.1 - lo.1 + 1)).map (fun d => (d, interpValue t d)))
  | _, _ => []

/-- The (date, value) rows of a daily series, dropping missing values:
serializing the series writes one such row per day. -/
def unwrapSeries (S : List (Nat × Option ℚ)) : List (Nat × ℚ) :=
  S.filterMap (fun p =>
    match p.2 with
    | some v => some (p.1, v)
    | none => none)

/-- The value the daily series carries at day `d` (`none` when the day is
absent from the series or holds `NaN`). -/
def dailyValue (S : List (Nat × Option ℚ)) (d : Nat) : Option ℚ :=
  match seriesLookup S d with
  | some o => o
  | none => none

/-! ## Merge and market capitalization (source lines 119-124) -/

/-- The share value the left join attaches to price date `d`: `NaN` when
the date is absent from the daily share series (or holds `NaN` there). -/
def joinShares (shares : List (Nat × Option ℚ)) (d : Nat) : Option ℚ :=
  match seriesLookup shares d with
  | some o => o
  | none => none

/-- The join `pd.merge(stock_data[['Precio']], df_shares_diario, left_index=True,
right_index=True, how='left')` (source line 120): the price rows drive the
output, each one annotated with the share value at its date. -/
def mergeLeft (price : List (Nat × ℚ)) (shares : List (Nat × Option ℚ)) :
    List (Nat × ℚ × Option ℚ) :=
  price.map (fun p => (p.1, p.2, joinShares shares p.1))

/-- The fill `df_merged['AccionesEnCirculacion'].fillna(method='ffill')` (source
line 121) on the merged rows. -/
def ffillMerge : Option ℚ → List (Nat × ℚ × Option ℚ) → List (Nat × ℚ × Option ℚ)
  | _, [] => []
  | acc, r :: t =>
    match r.2.2 with
    | some v => (r.1, r.2.1, some v) :: ffillMerge (some v) t
    | none => (r.1, r.2.1, acc) :: ffillMerge acc t

/-- The forward-fill accumulator after a merged block has been processed. -/
def ffillCarry : Option ℚ → List (Nat × ℚ × Option ℚ) → Option ℚ
  | acc, [] => acc
  | acc, r :: t =>
    match r.2.2 with
    | some v => ffillCarry (some v) t
    | none => ffillCarry acc t

/-- The merged frame after the forward fill (source lines 120-121). -/
def df_merged (price : List (Nat × ℚ)) (shares : List (Nat × Option ℚ)) :
    List (Nat × ℚ × Option ℚ) :=
  ffillMerge none (mergeLeft price shares)

/-- The product `df_merged['CapitalizacionDeMercado'] = df_merged['Precio'] *
df_merged['AccionesEnCirculacion']` (source line 124) on one row:
the product is exact, and `price * NaN` is `NaN`. -/
def capitalizacion (r : Nat × ℚ × Option ℚ) : Nat × ℚ × Option ℚ × Option ℚ :=
  (r.1, r.2.1, r.2.2, r.2.2.map (fun sh => r.2.1 * sh))

/-- The merged frame with the market-capitalization column (source lines
120-124). -/
def df_merged_cap (price : List (Nat × ℚ)) (shares : List (Nat × Option ℚ)) :
    List (Nat × ℚ × Option ℚ × Option ℚ) :=
  (df_merged price shares).map capitalizacion

/-! ## Helper lemmas about sorting and lookup -/

/-- Sorting permutes the samples. -/
theorem sortSamples_perm (l : List (Nat × ℚ)) : (sortSamples l).Perm l :=
  List.perm_insertionSort dateLE l

/-- The sorted samples are sorted by date. -/
theorem sortSamples_sorted (l : List (Nat × ℚ)) : List.Sorted dateLE (sortSamples l) :=
  List.sorted_insertionSort dateLE l

/-- Membership is preserved by sorting. -/
theorem mem_sortSamples {a : Nat × ℚ} {l : List (Nat × ℚ)} : a ∈ sortSamples l ↔ a ∈ l :=
  (sortSamples_perm l).mem_iff

/-- Distinct dates stay distinct after sorting. -/
theorem sortSamples_nodup {l : List (Nat × ℚ)} (h : (l.map Prod.fst).Nodup) :
    ((sortSamples l).map Prod.fst).Nodup :=
  (((sortSamples_perm l).map Prod.fst).nodup_iff).2 h

/-- A list sorted by date with pairwise-distinct dates is strictly sorted. -/
theorem sorted_strict_of_nodup {t : List (Nat × ℚ)} (hs : List.Sorted dateLE t)
    (hn : (t.map Prod.fst).Nodup) : List.Sorted dateLT t := by
  have h1 : List.Pairwise (fun a b : Nat × ℚ => a.1 ≠ b.1) t := List.pairwise_map.mp hn
  exact (List.Pairwise.and hs h1).imp (fun h => lt_of_le_of_ne h.1 h.2)

/-- Looking up a present key on a duplicate-free association list returns
its value. -/
theorem seriesLookup_some_of_mem {α : Type} {l : List (Nat × α)} {d : Nat} {v : α}
    (hn : (l.map Prod.fst).Nodup) (hm : (d, v) ∈ l) : seriesLookup l d = some v := by
  induction l with
  | nil => cases hm
  | cons p t ih =>
    rcases List.mem_cons.mp hm with h | h
    · rw [← h]
      simp [seriesLookup]
    · have hd : d ∈ t.map Prod.fst := List.mem_map.mpr ⟨(d, v), h, rfl⟩
      have hne : p.1 ≠ d := by
        intro hpd
        have := (List.nodup_cons.mp hn).1
        rw [hpd] at this
        exact this hd
      simp only [seriesLookup, if_neg hne]
      exact ih (List.Nodup.of_cons hn) h

/-- Looking up a present key returns some value. -/
theorem seriesLookup_isSome_of_mem {α : Type} {l : List (Nat × α)} {d : Nat} {v : α}
    (hm : (d, v) ∈ l) : ∃ w, seriesLookup l d = some w := by
  induction l with
  | nil => cases hm
  | cons p t ih =>
    by_cases hd : p.1 = d
    · exact ⟨p.2, by simp [seriesLookup, hd]⟩
    · rcases List.mem_cons.mp hm with h | h
      · rw [← h] at hd; exact absurd rfl hd
      · obtain ⟨w, hw⟩ := ih h
        exact ⟨w, by simp [seriesLookup, hd, hw]⟩

/-- Looking up an absent key returns `none`. -/
theorem seriesLookup_eq_none {α : Type} {l : List (Nat × α)} {d : Nat}
    (h : d ∉ l.map Prod.fst) : seriesLookup l d = none := by
  induction l with
  | nil => rfl
  | cons p t ih =>
    have h1 : p.1 ≠ d := fun hc => h (by simp [← hc])
    have h2 : d ∉ t.map Prod.fst := fun hc => h (by simp [hc])
    simp only [seriesLookup, if_neg h1]
    exact ih h2

/-- A successful lookup comes from a member of the list. -/
theorem mem_of_seriesLookup {α : Type} {l : List (Nat × α)} {d : Nat} {w : α}
    (h : seriesLookup l d = some w) : (d, w) ∈ l := by
  induction l with
  | nil => cases h
  | cons p t ih =>
    by_cases hd : p.1 = d
    · simp only [seriesLookup, if_pos hd] at h
      have hw : p.2 = w := Option.some.inj h
      exact List.mem_cons.mpr (Or.inl (by rw [← hd, ← hw]))
    · simp only [seriesLookup, if_neg hd] at h
      exact List.mem_cons_of_mem p (ih h)

/-- In a list sorted by date, the head has the least date. -/
theorem sorted_head_min {t : List (Nat × ℚ)} {a : Nat × ℚ}
    (hs : List.Sorted dateLE t) (h : t.head? = some a) : ∀ x ∈ t, a.1 ≤ x.1 := by
  cases t with
  | nil => cases h
  | cons p rest =>
    rw [List.head?_cons, Option.some.injEq] at h
    subst h
    intro x hx
    rcases List.mem_cons.mp hx with h | h
    · rw [h]
    · exact List.rel_of_sorted_cons hs x h

/-- The last element of a non-empty list is a member. -/
theorem mem_of_getLast? {α : Type} {l : List α} {a : α} (h : l.getLast? = some a) : a ∈ l := by
  induction l with
  | nil => cases h
  | cons p t ih =>
    cases t with
    | nil =>
      simp only [List.getLast?_singleton, Option.some.injEq] at h
      rw [h]; exact List.mem_singleton_self a
    | cons q rest =>
      rw [List.getLast?_cons_cons] at h
      exact List.mem_cons_of_mem p (ih h)

/-- In a list sorted by date, the last element has the greatest date. -/
theorem sorted_getLast_max {t : List (Nat × ℚ)} {a : Nat × ℚ}
    (hs : List.Sorted dateLE t) (h : t.getLast? = some a) : ∀ x ∈ t, x.1 ≤ a.1 := by
  induction t with
  | nil => cases h
  | cons p rest ih =>
    cases rest with
    | nil =>
      simp only [List.getLast?_singleton, Option.some.injEq] at h
      subst h
      intro x hx
      rw [List.mem_singleton.mp hx]
    | cons q rest2 =>
      rw [List.getLast?_cons_cons] at h
      intro x hx
      rcases List.mem_cons.mp hx with hxp | hxm
      · have ha : a ∈ q :: rest2 := mem_of_getLast? h
        have := List.rel_of_sorted_cons hs a ha
        rw [hxp]
        exact this
      · exact ih (List.Sorted.of_cons hs) h x hxm

/-- In a strictly sorted list, an element whose date dominates all dates is
the last element. -/
theorem getLast?_eq_of_max {t : List (Nat × ℚ)} {a : Nat × ℚ}
    (hs : List.Sorted dateLT t) (hm : a ∈ t) (hmax : ∀ x ∈ t, x.1 ≤ a.1) :
    t.getLast? = some a := by
  induction t with
  | nil => cases hm
  | cons p rest ih =>
    cases rest with
    | nil =>
      rw [List.mem_singleton.mp hm]
      rfl
    | cons q rest2 =>
      rw [List.getLast?_cons_cons]
      have hq : q ∈ q :: rest2 := List.mem_cons_self q rest2
      have hpq : p.1 < q.1 := List.rel_of_sorted_cons hs q hq
      have ham : a ∈ q :: rest2 := by
        rcases List.mem_cons.mp hm with h | h
        · exfalso
          have := hmax q (List.mem_cons_of_mem p hq)
          rw [h] at this
          exact absurd (lt_of_le_of_lt this hpq) (lt_irrefl _)
        · exact h
      exact ih (List.Sorted.of_cons hs) ham
        (fun x hx => hmax x (List.mem_cons_of_mem p hx))

/-- In a strictly sorted list, an element whose date is below all dates is
the head. -/
theorem head?_eq_of_min {t : List (Nat × ℚ)} {a : Nat × ℚ}
    (hs : List.Sorted dateLT t) (hm : a ∈ t) (hmin : ∀ x ∈ t, a.1 ≤ x.1) :
    t.head? = some a := by
  cases t with
  | nil => cases hm
  | cons p rest =>
    rw [List.head?_cons, Option.some.injEq]
    rcases List.mem_cons.mp hm with h | h
    · exact h.symm
    · exfalso
      have h1 : p.1 < a.1 := List.rel_of_sorted_cons hs a h
      have h2 : a.1 ≤ p.1 := hmin p (List.mem_cons_self p rest)
      exact absurd (lt_of_lt_of_le h1 h2) (lt_irrefl _)

/-! ## Helper lemmas about interpolation, the daily grid and forward fill -/

/-- A known date keeps its sample value after interpolation. -/
theorem interpValue_of_lookup {t : List (Nat × ℚ)} {d : Nat} {v : ℚ}
    (h : seriesLookup t d = some v) : interpValue t d = some v := by
  unfold interpValue
  rw [h]

/-- The nearest earlier sample, characterized on a strictly sorted list. -/
theorem prevSample_eq {t : List (Nat × ℚ)} {d : Nat} {a : Nat × ℚ}
    (hs : List.Sorted dateLT t) (ha : a ∈ t) (had : a.1 < d)
    (hmax : ∀ x ∈ t, x.1 < d → x.1 ≤ a.1) : prevSample t d = some a := by
  unfold prevSample
  apply getLast?_eq_of_max
  · exact List.Pairwise.sublist (List.filter_sublist t) hs
  · exact List.mem_filter.mpr ⟨ha, decide_eq_true had⟩
  · intro x hx
    have h1 := List.mem_filter.mp hx
    exact hmax x h1.1 (of_decide_eq_true h1.2)

/-- The nearest later sample, characterized on a strictly sorted list. -/
theorem nextSample_eq {t : List (Nat × ℚ)} {d : Nat} {a : Nat × ℚ}
    (hs : List.Sorted dateLT t) (ha : a ∈ t) (had : d < a.1)
    (hmin : ∀ x ∈ t, d < x.1 → a.1 ≤ x.1) : nextSample t d = some a := by
  unfold nextSample
  apply head?_eq_of_min
  · exact List.Pairwise.sublist (List.filter_sublist t) hs
  · exact List.mem_filter.mpr ⟨ha, decide_eq_true had⟩
  · intro x hx
    have h1 := List.mem_filter.mp hx
    exact hmin x h1.1 (of_decide_eq_true h1.2)

/-- Between the minimum and maximum sample date, interpolation always
produces a value: the daily grid has no missing values left. -/
theorem interpValue_total {t : List (Nat × ℚ)} {lo hi : Nat × ℚ} {d : Nat}
    (hs : List.Sorted dateLE t) (hh : t.head? = some lo) (hl : t.getLast? = some hi)
    (h1 : lo.1 ≤ d) (h2 : d ≤ hi.1) : ∃ v, interpValue t d = some v := by
  cases hsl : seriesLookup t d with
  | some v => exact ⟨v, interpValue_of_lookup hsl⟩
  | none =>
    have hlomem : lo ∈ t := by
      cases t with
      | nil => cases hh
      | cons p rest =>
        rw [List.head?_cons, Option.some.injEq] at hh
        rw [← hh]; exact List.mem_cons_self p rest
    have hhimem : hi ∈ t := mem_of_getLast? hl
    have hlone : lo.1 ≠ d := by
      intro hc
      obtain ⟨w, hw⟩ := seriesLookup_isSome_of_mem (show (lo.1, lo.2) ∈ t from hlomem)
      rw [hc] at hw
      rw [hw] at hsl
      cases hsl
    have hhine : d ≠ hi.1 := by
      intro hc
      obtain ⟨w, hw⟩ := seriesLookup_isSome_of_mem (show (hi.1, hi.2) ∈ t from hhimem)
      rw [← hc] at hw
      rw [hw] at hsl
      cases hsl
    have hlo : lo.1 < d := lt_of_le_of_ne h1 hlone
    have hhi : d < hi.1 := lt_of_le_of_ne h2 hhine
    have hprev : (t.filter (fun p => p.1 < d)) ≠ [] := by
      intro hc
      have : lo ∈ t.filter (fun p => p.1 < d) := List.mem_filter.mpr ⟨hlomem, decide_eq_true hlo⟩
      rw [hc] at this
      cases this
    have hnext : (t.filter (fun p => d < p.1)) ≠ [] := by
      intro hc
      have : hi ∈ t.filter (fun p => d < p.1) := List.mem_filter.mpr ⟨hhimem, decide_eq_true hhi⟩
      rw [hc] at this
      cases this
    obtain ⟨p, hp⟩ := Option.isSome_iff_exists.mp (List.getLast?_isSome.mpr hprev)
    obtain ⟨q, hq⟩ := Option.isSome_iff_exists.mp (List.head?_isSome.mpr hnext)
    refine ⟨p.2 + (q.2 - p.2) * ((d : ℚ) - (p.1 : ℚ)) / ((q.1 : ℚ) - (p.1 : ℚ)), ?_⟩
    unfold interpValue
    rw [hsl]
    unfold prevSample nextSample
    rw [hp, hq]

/-- Looking a day up on the daily grid built over `range'`. -/
theorem seriesLookup_grid {α : Type} (g : Nat → α) :
    ∀ (n lo d : Nat), lo ≤ d → d < lo + n →
      seriesLookup ((List.range' lo n).map (fun x => (x, g x))) d = some (g d) := by
  intro n
  induction n with
  | zero => intro lo d h1 h2; omega
  | succ n ih =>
    intro lo d h1 h2
    rw [List.range'_succ, List.map_cons]
    by_cases hd : lo = d
    · subst hd
      simp [seriesLookup]
    · have : seriesLookup ((lo, g lo) :: (List.range' (lo + 1) n).map (fun x => (x, g x))) d =
          seriesLookup ((List.range' (lo + 1) n).map (fun x => (x, g x))) d := by
        simp only [seriesLookup, if_neg hd]
      rw [this]
      exact ih (lo + 1) d (by omega) (by omega)

/-- The dates of the daily grid. -/
theorem grid_map_fst {α : Type} (g : Nat → α) (r : List Nat) :
    ((r.map (fun x => (x, g x))).map Prod.fst) = r := by
  induction r with
  | nil => rfl
  | cons a t ih => simp only [List.map_cons, ih]

/-- Forward-filling a list without missing values changes nothing. -/
theorem ffillAux_all_some {α : Type} (z : Option α) (l : List (Nat × Option α))
    (h : ∀ p ∈ l, p.2 ≠ none) : ffillAux z l = l := by
  induction l generalizing z with
  | nil => rfl
  | cons p t ih =>
    obtain ⟨v, hv⟩ := Option.ne_none_iff_exists.mp (h p (List.mem_cons_self p t))
    have h2 : ffillAux z (p :: t) = (p.1, some v) :: ffillAux (some v) t := by
      simp only [ffillAux, ← hv]
    rw [h2, ih (some v) (fun q hq => h q (List.mem_cons_of_mem p hq))]
    have h3 : (p.1, some v) = p := by rw [hv]
    rw [h3]

/-- Forward fill keeps the dates of the rows. -/
theorem ffillAux_map_fst {α : Type} (z : Option α) (l : List (Nat × Option α)) :
    (ffillAux z l).map Prod.fst = l.map Prod.fst := by
  induction l generalizing z with
  | nil => rfl
  | cons p t ih =>
    cases hv : p.2 with
    | some v =>
      simp only [ffillAux, hv, List.map_cons]
      rw [ih]
    | none =>
      simp only [ffillAux, hv, List.map_cons]
      rw [ih]

/-- Shape of the daily series: writing `lo` and `hi` for a minimal and a
maximal sample, the series is exactly the interpolated grid with one slot
per day from `lo.1` to `hi.1`, and every slot carries a value. -/
theorem df_shares_diario_shape {samples : List (Nat × ℚ)}
    (hne : samples ≠ []) :
    ∃ lo hi : Nat × ℚ, lo ∈ samples ∧ hi ∈ samples ∧
      (∀ x ∈ samples, lo.1 ≤ x.1 ∧ x.1 ≤ hi.1) ∧
      df_shares_diario samples =
        (List.range' lo.1 (hi.1 - lo.1 + 1)).map
          (fun d => (d, interpValue (sortSamples samples) d)) ∧
      ∀ d, lo.1 ≤ d → d ≤ hi.1 → ∃ v, interpValue (sortSamples samples) d = some v := by
  have htne : sortSamples samples ≠ [] := by
    intro hc
    apply hne
    have hlen := (sortSamples_perm samples).length_eq
    rw [hc] at hlen
    exact List.length_eq_zero.mp hlen.symm
  obtain ⟨lo, hlo⟩ := Option.isSome_iff_exists.mp (List.head?_isSome.mpr htne)
  obtain ⟨hi, hhi⟩ := Option.isSome_iff_exists.mp (List.getLast?_isSome.mpr htne)
  have hsle : List.Sorted dateLE (sortSamples samples) := sortSamples_sorted samples
  have hmin := sorted_head_min hsle hlo
  have hmax := sorted_getLast_max hsle hhi
  have hlomem : lo ∈ sortSamples samples := by
    cases hc : sortSamples samples with
    | nil => rw [hc] at hlo; cases hlo
    | cons p rest =>
      rw [hc, List.head?_cons, Option.some.injEq] at hlo
      rw [← hlo]
      exact List.mem_cons_self p rest
  have hhimem : hi ∈ sortSamples samples := mem_of_getLast? hhi
  have hlohi : lo.1 ≤ hi.1 := hmin hi hhimem
  have htotal : ∀ d, lo.1 ≤ d → d ≤ hi.1 →
      ∃ v, interpValue (sortSamples samples) d = some v :=
    fun d h1 h2 => interpValue_total hsle hlo hhi h1 h2
  refine ⟨lo, hi, mem_sortSamples.mp hlomem, mem_sortSamples.mp hhimem, ?_, ?_, htotal⟩
  · intro x hx
    exact ⟨hmin x (mem_sortSamples.mpr hx), hmax x (mem_sortSamples.mpr hx)⟩
  · have hdf : df_shares_diario samples =
        ffillAux none ((List.range' lo.1 (hi.1 - lo.1 + 1)).map
          (fun d => (d, interpValue (sortSamples samples) d))) := by
      simp only [df_shares_diario]
      rw [hlo, hhi]
    rw [hdf]
    apply ffillAux_all_some
    intro p hp
    obtain ⟨d, hd, hpd⟩ := List.mem_map.mp hp
    have hdr := List.mem_range'_1.mp hd
    obtain ⟨v, hv⟩ := htotal d hdr.1 (by omega)
    rw [← hpd]
    simp only [hv]
    intro hc
    cases hc

/-- The value the daily grid carries at an in-range day. -/
theorem dailyValue_grid (t : List (Nat × ℚ)) (lo n d : Nat) (h1 : lo ≤ d) (h2 : d < lo + n) :
    dailyValue ((List.range' lo n).map (fun x => (x, interpValue t x))) d =
      interpValue t d := by
  unfold dailyValue
  rw [seriesLookup_grid (fun x => interpValue t x) n lo d h1 h2]

/-! ## Claim theorems -/

/-- Claim C1.  For every valid input whose (already scaled) samples contain
two neighbouring known samples `(D1, V1)` and `(D2, V2)` with `D1 < D2`
(neighbouring: no sample date lies strictly between them, which is the
reading of spec section 4 step 5, "the two neighboring known dates"), the
daily series built by source lines 89-91 assigns to every date `D`
strictly between them the linearly interpolated value
`V1 + (V2 - V1) * (D - D1) / (D2 - D1)`, and in particular the value
`(V1 + V2) / 2` to the midpoint date when it exists. -/
theorem C1_interpolation (samples : List (Nat × ℚ))
    (hnd : (samples.map Prod.fst).Nodup)
    (D1 D2 D : Nat) (V1 V2 : ℚ)
    (h1 : (D1, V1) ∈ samples) (h2 : (D2, V2) ∈ samples)
    (h12 : D1 < D2)
    (hadj : ∀ x ∈ samples, ¬(D1 < x.1 ∧ x.1 < D2))
    (hD1 : D1 < D) (hD2 : D < D2) :
    dailyValue (df_shares_diario samples) D =
      some (V1 + (V2 - V1) * ((D : ℚ) - (D1 : ℚ)) / ((D2 : ℚ) - (D1 : ℚ))) ∧
    (2 * D = D1 + D2 →
      dailyValue (df_shares_diario samples) D = some ((V1 + V2) / 2)) := by
  have hne : samples ≠ [] := List.ne_nil_of_mem h1
  obtain ⟨lo, hi, hlomem, hhimem, hbounds, hdf, htot⟩ := df_shares_diario_shape hne
  have hstrict : List.Sorted dateLT (sortSamples samples) :=
    sorted_strict_of_nodup (sortSamples_sorted samples) (sortSamples_nodup hnd)
  have hloD : lo.1 ≤ D := le_of_lt (lt_of_le_of_lt (hbounds (D1, V1) h1).1 hD1)
  have hDhi : D ≤ hi.1 := le_of_lt (lt_of_lt_of_le hD2 (hbounds (D2, V2) h2).2)
  have hlohi : lo.1 ≤ hi.1 := (hbounds lo hlomem).2
  have hDrange : D < lo.1 + (hi.1 - lo.1 + 1) := by omega
  have hnone : seriesLookup (sortSamples samples) D = none := by
    apply seriesLookup_eq_none
    intro hc
    obtain ⟨x, hx, hxd⟩ := List.mem_map.mp hc
    have := hadj x (mem_sortSamples.mp hx)
    rw [hxd] at this
    exact this ⟨hD1, hD2⟩
  have hprev : prevSample (sortSamples samples) D = some (D1, V1) := by
    apply prevSample_eq hstrict (mem_sortSamples.mpr h1) hD1
    intro x hx hxD
    have hx2 := hadj x (mem_sortSamples.mp hx)
    by_contra hcon
    exact hx2 ⟨by omega, by omega⟩
  have hnext : nextSample (sortSamples samples) D = some (D2, V2) := by
    apply nextSample_eq hstrict (mem_sortSamples.mpr h2) hD2
    intro x hx hxD
    have hx2 := hadj x (mem_sortSamples.mp hx)
    by_contra hcon
    exact hx2 ⟨by omega, by omega⟩
  have hval : interpValue (sortSamples samples) D =
      some (V1 + (V2 - V1) * ((D : ℚ) - (D1 : ℚ)) / ((D2 : ℚ) - (D1 : ℚ))) := by
    unfold interpValue
    rw [hnone, hprev, hnext]
  have hmain : dailyValue (df_shares_diario samples) D =
      some (V1 + (V2 - V1) * ((D : ℚ) - (D1 : ℚ)) / ((D2 : ℚ) - (D1 : ℚ))) := by
    rw [hdf, dailyValue_grid (sortSamples samples) lo.1 (hi.1 - lo.1 + 1) D hloD hDrange]
    exact hval
  refine ⟨hmain, fun hmid => ?_⟩
  rw [hmain]
  congr 1
  have hq : (2 : ℚ) * (D : ℚ) = (D1 : ℚ) + (D2 : ℚ) := by exact_mod_cast hmid
  have hne2 : ((D2 : ℚ) - (D1 : ℚ)) ≠ 0 := by
    have h12q : (D1 : ℚ) < (D2 : ℚ) := by exact_mod_cast h12
    intro hc
    have : (D2 : ℚ) = (D1 : ℚ) := by linarith
    linarith
  field_simp
  linear_combination (V2 - V1) * hq

/-! ## Helper lemmas about the merge and the forward fill of the share column -/

/-- Functions `joinShares` and `dailyValue` read a daily series the same way. -/
theorem joinShares_eq_dailyValue (S : List (Nat × Option ℚ)) (d : Nat) :
    joinShares S d = dailyValue S d := rfl

/-- Forward fill distributes over appending, threading the accumulator. -/
theorem ffillMerge_append (z : Option ℚ) (l1 l2 : List (Nat × ℚ × Option ℚ)) :
    ffillMerge z (l1 ++ l2) = ffillMerge z l1 ++ ffillMerge (ffillCarry z l1) l2 := by
  induction l1 generalizing z with
  | nil => rfl
  | cons r t ih =>
    cases hv : r.2.2 with
    | some v =>
      simp only [List.cons_append, ffillMerge, ffillCarry, hv, List.append_eq]
      rw [ih]
    | none =>
      simp only [List.cons_append, ffillMerge, ffillCarry, hv, List.append_eq]
      rw [ih]

/-- Forward-filling a block of rows with no share value fills all of them
with the accumulator. -/
theorem ffillMerge_all_none (z : Option ℚ) (l : List (Nat × ℚ × Option ℚ))
    (h : ∀ r ∈ l, r.2.2 = none) :
    ffillMerge z l = l.map (fun r => (r.1, r.2.1, z)) := by
  induction l with
  | nil => rfl
  | cons r t ih =>
    have hr := h r (List.mem_cons_self r t)
    simp only [ffillMerge, hr, List.map_cons]
    rw [ih (fun q hq => h q (List.mem_cons_of_mem r hq))]

/-- The accumulator is unchanged by a block of rows with no share value. -/
theorem ffillCarry_all_none (z : Option ℚ) (l : List (Nat × ℚ × Option ℚ))
    (h : ∀ r ∈ l, r.2.2 = none) : ffillCarry z l = z := by
  induction l generalizing z with
  | nil => rfl
  | cons r t ih =>
    have hr := h r (List.mem_cons_self r t)
    simp only [ffillCarry, hr]
    exact ih z (fun q hq => h q (List.mem_cons_of_mem r hq))

/-- Forward fill keeps the dates and the order of the merged rows. -/
theorem ffillMerge_map_fst (z : Option ℚ) (l : List (Nat × ℚ × Option ℚ)) :
    (ffillMerge z l).map Prod.fst = l.map Prod.fst := by
  induction l generalizing z with
  | nil => rfl
  | cons r t ih =>
    cases hv : r.2.2 with
    | some v =>
      simp only [ffillMerge, hv, List.map_cons]
      rw [ih]
    | none =>
      simp only [ffillMerge, hv, List.map_cons]
      rw [ih]

/-- The dates of the merged frame are exactly the price dates, in order. -/
theorem df_merged_map_fst (price : List (Nat × ℚ)) (shares : List (Nat × Option ℚ)) :
    (df_merged price shares).map Prod.fst = price.map Prod.fst := by
  unfold df_merged mergeLeft
  rw [ffillMerge_map_fst, List.map_map]
  rfl

/-- The dates of the market-cap frame are exactly the price dates, in order. -/
theorem df_merged_cap_map_fst (price : List (Nat × ℚ)) (shares : List (Nat × Option ℚ)) :
    (df_merged_cap price shares).map Prod.fst = price.map Prod.fst := by
  unfold df_merged_cap
  rw [List.map_map]
  have : (Prod.fst ∘ capitalizacion) = (Prod.fst : Nat × ℚ × Option ℚ → Nat) := rfl
  rw [this, df_merged_map_fst]

/-- The strictly ascending run of consecutive days. -/
theorem pairwise_lt_range' : ∀ (n s : Nat), List.Pairwise (fun a b : Nat => a < b) (List.range' s n)
  | 0, _ => List.Pairwise.nil
  | n + 1, s => by
    rw [List.range'_succ]
    exact List.Pairwise.cons
      (fun b hb => lt_of_lt_of_le (Nat.lt_succ_self s) (List.mem_range'_1.mp hb).1)
      (pairwise_lt_range' n (s + 1))

/-- Claim C2.  For every input with at least one valid row (and, as the code
requires to run at all, pairwise-distinct dates), the daily share series
contains exactly one entry for every calendar day from the minimum to the
maximum input date inclusive — its date column is literally the run of
consecutive days `range' lo (hi - lo + 1)` — and a day carries an entry
iff it lies in that closed range. -/
theorem C2_daily_coverage (samples : List (Nat × ℚ))
    (hne : samples ≠ []) (_hnd : (samples.map Prod.fst).Nodup) :
    ∃ lo hi : Nat × ℚ, lo ∈ samples ∧ hi ∈ samples ∧
      (∀ x ∈ samples, lo.1 ≤ x.1 ∧ x.1 ≤ hi.1) ∧
      (df_shares_diario samples).map Prod.fst = List.range' lo.1 (hi.1 - lo.1 + 1) ∧
      (∀ d : Nat, d ∈ (df_shares_diario samples).map Prod.fst ↔ lo.1 ≤ d ∧ d ≤ hi.1) := by
  obtain ⟨lo, hi, hlomem, hhimem, hbounds, hdf, _⟩ := df_shares_diario_shape hne
  have hlohi : lo.1 ≤ hi.1 := (hbounds lo hlomem).2
  have hmap : (df_shares_diario samples).map Prod.fst = List.range' lo.1 (hi.1 - lo.1 + 1) := by
    rw [hdf]
    exact grid_map_fst _ _
  refine ⟨lo, hi, hlomem, hhimem, hbounds, hmap, fun d => ?_⟩
  rw [hmap, List.mem_range'_1]
  omega

/-- Witness for C2 on a concrete two-sample input. -/
theorem C2_daily_coverage_witness :
    ∃ lo hi : Nat × ℚ,
      lo ∈ [(738521, (10000000 : ℚ)), (738523, 20000000)] ∧
      hi ∈ [(738521, (10000000 : ℚ)), (738523, 20000000)] ∧
      (∀ x ∈ [(738521, (10000000 : ℚ)), (738523, 20000000)], lo.1 ≤ x.1 ∧ x.1 ≤ hi.1) ∧
      (df_shares_diario [(738521, (10000000 : ℚ)), (738523, 20000000)]).map Prod.fst =
        List.range' lo.1 (hi.1 - lo.1 + 1) ∧
      (∀ d : Nat,
        d ∈ (df_shares_diario [(738521, (10000000 : ℚ)), (738523, 20000000)]).map Prod.fst ↔
          lo.1 ≤ d ∧ d ≤ hi.1) :=
  C2_daily_coverage [(738521, (10000000 : ℚ)), (738523, 20000000)] (by decide) (by decide)

/-- Claim C8.  The builder is insensitive to the order of the input lines:
permuting the (duplicate-free) samples leaves the daily series unchanged,
and the series is strictly ascending by date — the surviving samples are
indexed and sorted by date before resampling (source lines 89-90). -/
theorem C8_order_insensitive (samples samples2 : List (Nat × ℚ))
    (hperm : samples.Perm samples2)
    (hnd : (samples.map Prod.fst).Nodup) :
    df_shares_diario samples = df_shares_diario samples2 ∧
    List.Pairwise (fun a b : Nat × Option ℚ => a.1 < b.1) (df_shares_diario samples) := by
  have hnd2 : (samples2.map Prod.fst).Nodup := ((hperm.map Prod.fst).nodup_iff).1 hnd
  have hsort : sortSamples samples = sortSamples samples2 := by
    have hp : (sortSamples samples).Perm (sortSamples samples2) :=
      ((sortSamples_perm samples).trans hperm).trans (sortSamples_perm samples2).symm
    exact List.eq_of_perm_of_sorted hp
      (sorted_strict_of_nodup (sortSamples_sorted samples) (sortSamples_nodup hnd))
      (sorted_strict_of_nodup (sortSamples_sorted samples2) (sortSamples_nodup hnd2))
  constructor
  · unfold df_shares_diario
    rw [hsort]
  · by_cases hne : samples = []
    · have : sortSamples samples = [] := by rw [hne]; rfl
      unfold df_shares_diario
      rw [this]
      exact List.Pairwise.nil
    · obtain ⟨lo, hi, _, _, _, hdf, _⟩ := df_shares_diario_shape hne
      have hmap : (df_shares_diario samples).map Prod.fst =
          List.range' lo.1 (hi.1 - lo.1 + 1) := by
        rw [hdf]
        exact grid_map_fst _ _
      have := pairwise_lt_range' (hi.1 - lo.1 + 1) lo.1
      rw [← hmap] at this
      exact List.pairwise_map.mp this

/-- Witness for C8: the end-to-end scenario input in its two line orders. -/
theorem C8_order_insensitive_witness :
    df_shares_diario [(738521, (10000000 : ℚ)), (738523, 20000000)] =
      df_shares_diario [(738523, (20000000 : ℚ)), (738521, 10000000)] ∧
    List.Pairwise (fun a b : Nat × Option ℚ => a.1 < b.1)
      (df_shares_diario [(738521, (10000000 : ℚ)), (738523, 20000000)]) :=
  C8_order_insensitive [(738521, (10000000 : ℚ)), (738523, 20000000)]
    [(738523, (20000000 : ℚ)), (738521, 10000000)]
    (List.Perm.swap _ _ _) (by decide)

/-- Replaying the dates of a duplicate-free association list through lookup
reproduces the list. -/
theorem seriesLookup_self_map {u : List (Nat × ℚ)} (hnd : (u.map Prod.fst).Nodup) :
    (u.map Prod.fst).map (fun d => (d, seriesLookup u d)) =
      u.map (fun p => (p.1, some p.2)) := by
  induction u with
  | nil => rfl
  | cons p t ih =>
    simp only [List.map_cons]
    have hhead : seriesLookup (p :: t) p.1 = some p.2 := by
      simp [seriesLookup]
    have htail : ∀ d ∈ t.map Prod.fst, seriesLookup (p :: t) d = seriesLookup t d := by
      intro d hd
      have hne : p.1 ≠ d := fun hc => (List.nodup_cons.mp hnd).1 (hc ▸ hd)
      simp [seriesLookup, hne]
    rw [hhead]
    congr 1
    rw [List.map_congr_left (fun d hd => by rw [htail d hd])]
    exact ih (List.Nodup.of_cons hnd)

/-- Dropping the `Option` layer of a grid of present values. -/
theorem unwrapSeries_map {r : List Nat} {f : Nat → Option ℚ}
    (h : ∀ d ∈ r, ∃ v, f d = some v) :
    unwrapSeries (r.map (fun d => (d, f d))) =
      r.map (fun d => (d, (f d).getD 0)) := by
  induction r with
  | nil => rfl
  | cons a t ih =>
    obtain ⟨v, hv⟩ := h a (List.mem_cons_self a t)
    simp only [unwrapSeries, List.map_cons, List.filterMap_cons] at ih ⊢
    rw [hv]
    simp only [Option.getD_some]
    rw [ih (fun d hd => h d (List.mem_cons_of_mem a hd))]

/-- Interpolation of already-dense data is a no-op: when the sample dates
are exactly a run of consecutive days, the daily series is the samples
themselves (with their values marked present). -/
theorem df_shares_diario_dense {u : List (Nat × ℚ)} {lo n : Nat}
    (hmap : u.map Prod.fst = List.range' lo n) (hn : 0 < n) :
    df_shares_diario u = u.map (fun p => (p.1, some p.2)) := by
  have hpl : List.Pairwise (fun a b : Nat => a < b) (u.map Prod.fst) := by
    rw [hmap]
    exact pairwise_lt_range' n lo
  have hnd : (u.map Prod.fst).Nodup := hpl.imp (fun h => Nat.ne_of_lt h)
  have hstrict : List.Sorted dateLT u := by
    have hp2 := List.pairwise_map.mp hpl
    exact hp2
  have hne : u ≠ [] := by
    intro hc
    have := congrArg List.length hmap
    rw [hc] at this
    simp at this
    omega
  have hsort : sortSamples u = u :=
    List.eq_of_perm_of_sorted (sortSamples_perm u)
      (sorted_strict_of_nodup (sortSamples_sorted u) (sortSamples_nodup hnd)) hstrict
  obtain ⟨lo', hi', hlomem, hhimem, hbounds, hdf, htot⟩ := df_shares_diario_shape hne
  have hlo'mem : lo'.1 ∈ List.range' lo n := by
    rw [← hmap]
    exact List.mem_map.mpr ⟨lo', hlomem, rfl⟩
  have hhi'mem : hi'.1 ∈ List.range' lo n := by
    rw [← hmap]
    exact List.mem_map.mpr ⟨hi', hhimem, rfl⟩
  have hlomemr : lo ∈ u.map Prod.fst := by
    rw [hmap]
    exact List.mem_range'_1.mpr ⟨le_refl lo, by omega⟩
  have htopmemr : lo + n - 1 ∈ u.map Prod.fst := by
    rw [hmap]
    exact List.mem_range'_1.mpr ⟨by omega, by omega⟩
  obtain ⟨x1, hx1, hx1d⟩ := List.mem_map.mp hlomemr
  obtain ⟨x2, hx2, hx2d⟩ := List.mem_map.mp htopmemr
  have hlo'eq : lo'.1 = lo := by
    have h1 := (List.mem_range'_1.mp hlo'mem).1
    have h2 := (hbounds x1 hx1).1
    omega
  have hhi'eq : hi'.1 = lo + n - 1 := by
    have h1 := (List.mem_range'_1.mp hhi'mem).2
    have h2 := (hbounds x2 hx2).2
    omega
  have hcount : hi'.1 - lo'.1 + 1 = n := by omega
  rw [hdf, hsort, hcount, hlo'eq, ← hmap]
  have hstep : ∀ d ∈ u.map Prod.fst,
      (d, interpValue u d) = (d, seriesLookup u d) := by
    intro d hd
    obtain ⟨x, hx, hxd⟩ := List.mem_map.mp hd
    have hmem : (d, x.2) ∈ u := by
      rw [← hxd]
      exact hx
    obtain ⟨w, hw⟩ := seriesLookup_isSome_of_mem hmem
    rw [interpValue_of_lookup hw, hw]
  rw [List.map_congr_left hstep]
  exact seriesLookup_self_map hnd

/-- Claim C9.  The builder is idempotent on dense data: if a text block is a
faithful serialization of a daily series the builder produced — cleaning
it (which re-applies the million scaling, so the serialized values are in
millions) recovers exactly the series rows — then re-running the builder
on it yields the identical daily series. -/
theorem C9_idempotent (samples : List (Nat × ℚ)) (text : String)
    (hne : samples ≠ []) (_hnd : (samples.map Prod.fst).Nodup)
    (hser : numSamples (clean_data text) = some (unwrapSeries (df_shares_diario samples))) :
    ∃ u, numSamples (clean_data text) = some u ∧
      df_shares_diario u = df_shares_diario samples := by
  refine ⟨unwrapSeries (df_shares_diario samples), hser, ?_⟩
  obtain ⟨lo, hi, hlomem, hhimem, hbounds, hdf, htot⟩ := df_shares_diario_shape hne
  have hlohi : lo.1 ≤ hi.1 := (hbounds lo hlomem).2
  have hunw : unwrapSeries (df_shares_diario samples) =
      (List.range' lo.1 (hi.1 - lo.1 + 1)).map
        (fun d => (d, (interpValue (sortSamples samples) d).getD 0)) := by
    rw [hdf]
    apply unwrapSeries_map
    intro d hd
    have hdr := List.mem_range'_1.mp hd
    exact htot d hdr.1 (by omega)
  have hmapfst : (unwrapSeries (df_shares_diario samples)).map Prod.fst =
      List.range' lo.1 (hi.1 - lo.1 + 1) := by
    rw [hunw]
    exact grid_map_fst _ _
  have hdense := df_shares_diario_dense hmapfst (by omega)
  rw [hdense, hunw, hdf, List.map_map]
  apply List.map_congr_left
  intro d hd
  have hdr := List.mem_range'_1.mp hd
  obtain ⟨v, hv⟩ := htot d hdr.1 (by omega)
  simp [Function.comp, hv]

/-- Witness for C1 on the end-to-end scenario of the spec: the input block
`2023-01-01 10 / 2023-01-03 20` cleans to the two samples and the daily
series carries `15,000,000` at the in-between day `2023-01-02`. -/
theorem C1_interpolation_witness :
    numSamples (clean_data "2023-01-01\t10\n2023-01-03\t20") =
      some [(738521, (10000000 : ℚ)), (738523, 20000000)] ∧
    dailyValue (df_shares_diario [(738521, (10000000 : ℚ)), (738523, 20000000)]) 738522 =
      some 15000000 := by
  constructor
  · norm_num +decide [clean_data, cleanDataCore, readCsv, strip, myTrim, mySplit, rowOfLine,
      colIsNumeric, fieldIsNumericOrNA, parseNum, splitSign, digitVal, parseNatChars, parseDate,
      accionesCell, scaleCell, monthLength, monthOffset, rataDie, isLeapYear, numSamples,
      List.filterMap_cons, List.map_cons, List.map_nil, List.filterMap_nil]
  · have h := (C1_interpolation [(738521, (10000000 : ℚ)), (738523, 20000000)]
      (by decide) 738521 738523 738522 10000000 20000000
      (List.mem_cons_self _ _) (List.mem_cons_of_mem _ (List.mem_cons_self _ _))
      (by decide) (by decide) (by decide) (by decide)).2 (by decide)
    rw [h]
    norm_num

/-- Witness for C9: the serialized dense series `10 / 15 / 20` (in millions)
re-builds the daily series of the two-sample input. -/
theorem C9_idempotent_witness :
    ∃ u, numSamples (clean_data "2023-01-01\t10\n2023-01-02\t15\n2023-01-03\t20") = some u ∧
      df_shares_diario u = df_shares_diario [(738521, (10000000 : ℚ)), (738523, 20000000)] :=
  C9_idempotent [(738521, (10000000 : ℚ)), (738523, 20000000)]
    "2023-01-01\t10\n2023-01-02\t15\n2023-01-03\t20" (by decide) (by decide)
    (by norm_num +decide [clean_data, cleanDataCore, readCsv, strip, myTrim, mySplit, rowOfLine,
      colIsNumeric, fieldIsNumericOrNA, parseNum, splitSign, digitVal, parseNatChars, parseDate,
      accionesCell, scaleCell, monthLength, monthOffset, rataDie, isLeapYear, numSamples,
      unwrapSeries, df_shares_diario, sortSamples, List.insertionSort, List.orderedInsert, dateLE,
      interpValue, seriesLookup, prevSample, nextSample, ffillAux, List.range',
      List.filterMap_cons, List.map_cons, List.map_nil, List.filterMap_nil])

/-- Claim C4.  For every row of the market-cap frame, the market-cap column
is exactly the price of that row times the share count of that row
(source line 124): an exact rational product, `NaN` when the share count
is missing, with no rounding or unit change, and the row comes unchanged
from the merged frame. -/
theorem C4_market_cap_product (price : List (Nat × ℚ)) (shares : List (Nat × Option ℚ)) :
    ∀ r ∈ df_merged_cap price shares,
      ∃ d p sh, r = (d, p, sh, Option.map (fun v => p * v) sh) ∧
        (d, p, sh) ∈ df_merged price shares := by
  intro r hr
  obtain ⟨q, hq, hqr⟩ := List.mem_map.mp hr
  refine ⟨q.1, q.2.1, q.2.2, ?_, ?_⟩
  · rw [← hqr]
    rfl
  · exact hq

/-- Witness for C4 on the end-to-end merge scenario of the spec:
prices 5 and 6 over share counts 10,000,000 and 15,000,000 give market
caps 50,000,000 and 90,000,000. -/
theorem C4_market_cap_product_witness :
    df_merged_cap [(738521, (5 : ℚ)), (738522, 6)]
        [(738521, some (10000000 : ℚ)), (738522, some 15000000)] =
      [(738521, 5, some 10000000, some 50000000),
       (738522, 6, some 15000000, some 90000000)] ∧
    ∃ d p sh,
      ((738521 : Nat), (5 : ℚ), some (10000000 : ℚ), some (50000000 : ℚ)) =
        (d, p, sh, Option.map (fun v => p * v) sh) ∧
      (d, p, sh) ∈ df_merged [(738521, (5 : ℚ)), (738522, 6)]
        [(738521, some (10000000 : ℚ)), (738522, some 15000000)] := by
  have heval : df_merged_cap [(738521, (5 : ℚ)), (738522, 6)]
      [(738521, some (10000000 : ℚ)), (738522, some 15000000)] =
      [(738521, 5, some 10000000, some 50000000),
       (738522, 6, some 15000000, some 90000000)] := by
    norm_num +decide [df_merged_cap, df_merged, mergeLeft, joinShares, seriesLookup,
      ffillMerge, capitalizacion, Option.map]
  refine ⟨heval, ?_⟩
  apply C4_market_cap_product
  rw [heval]
  exact List.mem_cons_self _ _

/-- Claim C10 (implicit): a price date strictly before the earliest
share-data date stays without a share count after the left merge — the
forward fill has nothing earlier to propagate — and its market-cap value
is `NaN` (`none`), not an error and not a fabricated number. -/
theorem C10_leading_gap (samples price : List (Nat × ℚ))
    (hps : List.Pairwise (fun a b : Nat × ℚ => a.1 < b.1) price)
    (minD : Nat) (v0 : ℚ) (hmem : (minD, v0) ∈ samples)
    (hmin : ∀ e ∈ samples, minD ≤ e.1) :
    ∀ d p, (d, p) ∈ price → d < minD →
      (d, p, (none : Option ℚ)) ∈ df_merged price (df_shares_diario samples) ∧
      (d, p, (none : Option ℚ), (none : Option ℚ)) ∈
        df_merged_cap price (df_shares_diario samples) := by
  intro d p hdp hdlt
  have hne : samples ≠ [] := List.ne_nil_of_mem hmem
  obtain ⟨lo, hi, hlomem, hhimem, hbounds, hdf, htot⟩ := df_shares_diario_shape hne
  have hlo : minD ≤ lo.1 := hmin lo hlomem
  have hSdates : (df_shares_diario samples).map Prod.fst =
      List.range' lo.1 (hi.1 - lo.1 + 1) := by
    rw [hdf]
    exact grid_map_fst _ _
  have hjoin_none : ∀ e : Nat, e < lo.1 → joinShares (df_shares_diario samples) e = none := by
    intro e he
    unfold joinShares
    rw [seriesLookup_eq_none]
    rw [hSdates]
    intro hc
    have := (List.mem_range'_1.mp hc).1
    omega
  obtain ⟨pre, post, hsplit⟩ := List.append_of_mem hdp
  have hpre : ∀ a ∈ pre, a.1 < d := by
    rw [hsplit] at hps
    have h3 := (List.pairwise_append.mp hps).2.2
    intro a ha
    exact h3 a ha (d, p) (List.mem_cons_self _ _)
  have hprenone : ∀ r ∈ mergeLeft pre (df_shares_diario samples), r.2.2 = none := by
    intro r hrm
    obtain ⟨a, ha, har⟩ := List.mem_map.mp hrm
    rw [← har]
    exact hjoin_none a.1 (by have := hpre a ha; omega)
  have hjd : joinShares (df_shares_diario samples) d = none := hjoin_none d (by omega)
  have hrow : df_merged price (df_shares_diario samples) =
      ffillMerge none (mergeLeft pre (df_shares_diario samples)) ++
        (d, p, (none : Option ℚ)) ::
          ffillMerge none (mergeLeft post (df_shares_diario samples)) := by
    have hmerge : mergeLeft price (df_shares_diario samples) =
        mergeLeft pre (df_shares_diario samples) ++
          (d, p, joinShares (df_shares_diario samples) d) ::
            mergeLeft post (df_shares_diario samples) := by
      rw [hsplit]
      unfold mergeLeft
      rw [List.map_append, List.map_cons]
    unfold df_merged
    rw [hmerge, ffillMerge_append, ffillCarry_all_none none _ hprenone, hjd]
    rfl
  have hmemrow : (d, p, (none : Option ℚ)) ∈ df_merged price (df_shares_diario samples) := by
    rw [hrow]
    exact List.mem_append_right _ (List.mem_cons_self _ _)
  refine ⟨hmemrow, ?_⟩
  unfold df_merged_cap
  exact List.mem_map.mpr ⟨(d, p, none), hmemrow, rfl⟩

/-- Witness for C10: a price date (day 8) before the only share sample
(day 10) keeps `NaN` shares and `NaN` market cap. -/
theorem C10_leading_gap_witness :
    ((8 : Nat), (3 : ℚ), (none : Option ℚ)) ∈
      df_merged [(8, (3 : ℚ)), (9, 4)] (df_shares_diario [(10, (5 : ℚ))]) ∧
    ((8 : Nat), (3 : ℚ), (none : Option ℚ), (none : Option ℚ)) ∈
      df_merged_cap [(8, (3 : ℚ)), (9, 4)] (df_shares_diario [(10, (5 : ℚ))]) :=
  C10_leading_gap [(10, (5 : ℚ))] [(8, (3 : ℚ)), (9, 4)] (by decide)
    10 5 (List.mem_cons_self _ _) (by decide) 8 3 (List.mem_cons_self _ _) (by decide)

/-- Claim C3, counterexample to the claim as stated.  Shares sampled at days
1 and 3 (values 0 and 24) give the daily series `1 ↦ 0, 2 ↦ 12, 3 ↦ 24`;
merging with a price series over days 2 and 4 forward-fills day 4 (which
lies after the maximum share date 3) with the last share value present in
the merged frame — `12`, the value at price date 2 — and not with the
share count at the maximum share date, which is `24`. -/
theorem C3_counterexample :
    df_merged [(2, (5 : ℚ)), (4, 7)] (df_shares_diario [(1, (0 : ℚ)), (3, 24)]) =
      [(2, 5, some 12), (4, 7, some 12)] ∧
    dailyValue (df_shares_diario [(1, (0 : ℚ)), (3, 24)]) 3 = some 24 ∧
    (12 : ℚ) ≠ 24 := by
  refine ⟨?_, ?_, by norm_num⟩
  · norm_num +decide [df_merged, mergeLeft, joinShares, seriesLookup, ffillMerge,
      df_shares_diario, sortSamples, List.insertionSort, List.orderedInsert, dateLE,
      interpValue, prevSample, nextSample, ffillAux, List.range']
  · norm_num +decide [dailyValue, seriesLookup, df_shares_diario, sortSamples,
      List.insertionSort, List.orderedInsert, dateLE, interpValue, prevSample,
      nextSample, ffillAux, List.range']

/-- Claim C3, amended.  The merge is left-join-from-price: the date column of
the market-cap frame equals the price date column exactly (source line
120).  For dates after the maximum known share date the share column is
forward-filled from the last share value present in the merged frame
(source line 121), before multiplying; provided the price series contains
the maximum share-data date, that carried value is precisely the daily
value at the maximum share date, so every later price row carries it. -/
theorem C3_amended_left_join (samples price : List (Nat × ℚ))
    (hps : List.Pairwise (fun a b : Nat × ℚ => a.1 < b.1) price)
    (maxD : Nat) (vm : ℚ) (hmem : (maxD, vm) ∈ samples)
    (hmax : ∀ e ∈ samples, e.1 ≤ maxD)
    (pm : ℚ) (hpmem : (maxD, pm) ∈ price) :
    (df_merged_cap price (df_shares_diario samples)).map Prod.fst = price.map Prod.fst ∧
    ∃ vmax, dailyValue (df_shares_diario samples) maxD = some vmax ∧
      ∀ d p, (d, p) ∈ price → maxD < d →
        (d, p, some vmax) ∈ df_merged price (df_shares_diario samples) := by
  refine ⟨df_merged_cap_map_fst price _, ?_⟩
  have hne : samples ≠ [] := List.ne_nil_of_mem hmem
  obtain ⟨lo, hi, hlomem, hhimem, hbounds, hdf, htot⟩ := df_shares_diario_shape hne
  have hhieq : hi.1 = maxD :=
    le_antisymm (hmax hi hhimem) (hbounds (maxD, vm) hmem).2
  have hlomax : lo.1 ≤ maxD := by
    have := (hbounds lo hlomem).2
    omega
  have hSdates : (df_shares_diario samples).map Prod.fst =
      List.range' lo.1 (hi.1 - lo.1 + 1) := by
    rw [hdf]
    exact grid_map_fst _ _
  obtain ⟨vmax, hvmax⟩ := htot maxD hlomax (by omega)
  have hdva : dailyValue (df_shares_diario samples) maxD = some vmax := by
    rw [hdf, dailyValue_grid (sortSamples samples) lo.1 (hi.1 - lo.1 + 1) maxD hlomax
      (by omega)]
    exact hvmax
  refine ⟨vmax, hdva, ?_⟩
  intro d p hdp hdgt
  have hjoin_none : ∀ e : Nat, maxD < e → joinShares (df_shares_diario samples) e = none := by
    intro e he
    unfold joinShares
    rw [seriesLookup_eq_none]
    rw [hSdates]
    intro hc
    have h2 := (List.mem_range'_1.mp hc).2
    omega
  have hjmax : joinShares (df_shares_diario samples) maxD = some vmax := by
    rw [joinShares_eq_dailyValue]
    exact hdva
  obtain ⟨pre, post, hsplit⟩ := List.append_of_mem hpmem
  have hps2 := hps
  rw [hsplit] at hps2
  have happ := List.pairwise_append.mp hps2
  have hpre : ∀ a ∈ pre, a.1 < maxD :=
    fun a ha => happ.2.2 a ha (maxD, pm) (List.mem_cons_self _ _)
  have hpost : ∀ b ∈ post, maxD < b.1 :=
    fun b hb => (List.pairwise_cons.mp happ.2.1).1 b hb
  have hpostnone : ∀ r ∈ mergeLeft post (df_shares_diario samples), r.2.2 = none := by
    intro r hrm
    obtain ⟨a, ha, har⟩ := List.mem_map.mp hrm
    rw [← har]
    exact hjoin_none a.1 (hpost a ha)
  have hdpost : (d, p) ∈ post := by
    rw [hsplit] at hdp
    rcases List.mem_append.mp hdp with h | h
    · exfalso
      have := hpre (d, p) h
      omega
    · rcases List.mem_cons.mp h with h2 | h2
      · exfalso
        have : d = maxD := congrArg Prod.fst h2
        omega
      · exact h2
  have hmerge : mergeLeft price (df_shares_diario samples) =
      mergeLeft pre (df_shares_diario samples) ++
        (maxD, pm, joinShares (df_shares_diario samples) maxD) ::
          mergeLeft post (df_shares_diario samples) := by
    rw [hsplit]
    unfold mergeLeft
    rw [List.map_append, List.map_cons]
  have hrow : df_merged price (df_shares_diario samples) =
      ffillMerge none (mergeLeft pre (df_shares_diario samples)) ++
        (maxD, pm, some vmax) ::
          (mergeLeft post (df_shares_diario samples)).map
            (fun r => (r.1, r.2.1, some vmax)) := by
    unfold df_merged
    rw [hmerge, ffillMerge_append, hjmax]
    congr 1
    have : ffillMerge (ffillCarry none (mergeLeft pre (df_shares_diario samples)))
        ((maxD, pm, some vmax) :: mergeLeft post (df_shares_diario samples)) =
        (maxD, pm, some vmax) ::
          ffillMerge (some vmax) (mergeLeft post (df_shares_diario samples)) := rfl
    rw [this, ffillMerge_all_none (some vmax) _ hpostnone]
  rw [hrow]
  apply List.mem_append_right
  apply List.mem_cons_of_mem
  apply List.mem_map.mpr
  refine ⟨(d, p, joinShares (df_shares_diario samples) d), ?_, rfl⟩
  unfold mergeLeft
  exact List.mem_map.mpr ⟨(d, p), hdpost, rfl⟩

/-- Witness for the amended C3: price dates 2, 3, 4 against shares sampled
at days 1 and 3; the price series contains the maximum share date 3, and
the later price date 4 carries the day-3 share value 24. -/
theorem C3_amended_left_join_witness :
    (df_merged_cap [(2, (5 : ℚ)), (3, 6), (4, 7)]
        (df_shares_diario [(1, (0 : ℚ)), (3, 24)])).map Prod.fst =
      [(2, (5 : ℚ)), (3, 6), (4, 7)].map Prod.fst ∧
    ∃ vmax, dailyValue (df_shares_diario [(1, (0 : ℚ)), (3, 24)]) 3 = some vmax ∧
      ∀ d p, (d, p) ∈ [(2, (5 : ℚ)), (3, 6), (4, 7)] → 3 < d →
        (d, p, some vmax) ∈
          df_merged [(2, (5 : ℚ)), (3, 6), (4, 7)] (df_shares_diario [(1, (0 : ℚ)), (3, 24)]) :=
  C3_amended_left_join [(1, (0 : ℚ)), (3, 24)] [(2, (5 : ℚ)), (3, 6), (4, 7)]
    (by decide) 3 24 (List.mem_cons_of_mem _ (List.mem_cons_self _ _)) (by decide)
    6 (List.mem_cons_of_mem _ (List.mem_cons_self _ _))

/-- Rows whose date fails to parse are all dropped by
`dropna(subset=['Fecha'])` (source line 78). -/
theorem keptRows_nil {rows : List RawRow} (numeric : Bool)
    (h : ∀ r ∈ rows, parseDate r.fecha = none) :
    (rows.map (fun r => (parseDate r.fecha, accionesCell numeric r.acciones))).filterMap
      (fun p => match p.1 with | some d => some (d, p.2) | none => none) = [] := by
  induction rows with
  | nil => rfl
  | cons r t ih =>
    simp only [List.map_cons, List.filterMap_cons, h r (List.mem_cons_self r t)]
    exact ih (fun q hq => h q (List.mem_cons_of_mem r hq))

/-- Claim C5.  The parser `clean_data` is total: it either returns the successful parse
or the explicit empty frame (the catch-all `except` of source lines 81-83),
never an unhandled fault.  A whitespace-only input and an input whose lines
all lack a parseable date both yield the empty frame, and the caller's
guard on source line 88 then refuses to proceed to the merge/plot steps. -/
theorem C5_total_and_empty (s : String) :
    (clean_data s = [] ∨ cleanDataCore s = Except.ok (clean_data s)) ∧
    (strip s = "" → clean_data s = [] ∧ proceedToPlot (clean_data s) = false) ∧
    (∀ rows, readCsv (strip s) = Except.ok rows →
      (∀ r ∈ rows, parseDate r.fecha = none) →
      clean_data s = [] ∧ proceedToPlot (clean_data s) = false) := by
  refine ⟨?_, ?_, ?_⟩
  · cases h : cleanDataCore s with
    | error e =>
      left
      unfold clean_data
      rw [h]
    | ok r =>
      right
      unfold clean_data
      rw [h]
  · intro hstrip
    have hcore : cleanDataCore s =
        Except.error "EmptyDataError: no columns to parse from file" := by
      unfold cleanDataCore
      rw [hstrip]
      rfl
    have hcd : clean_data s = [] := by
      unfold clean_data
      rw [hcore]
    exact ⟨hcd, by rw [hcd]; rfl⟩
  · intro rows hread hall
    have hcore : cleanDataCore s = Except.ok [] := by
      unfold cleanDataCore
      rw [hread]
      simp only [keptRows_nil (colIsNumeric rows) hall, List.map_nil]
    have hcd : clean_data s = [] := by
      unfold clean_data
      rw [hcore]
    exact ⟨hcd, by rw [hcd]; rfl⟩

/-- Witness for C5: a whitespace-only input and an input with no parseable
date each produce the empty frame and stop the pipeline. -/
theorem C5_total_and_empty_witness :
    clean_data "   " = [] ∧ proceedToPlot (clean_data "   ") = false ∧
    clean_data "abc\t5\nxyz\t7" = [] ∧
    proceedToPlot (clean_data "abc\t5\nxyz\t7") = false := by
  refine ⟨((C5_total_and_empty "   ").2.1 rfl).1, ((C5_total_and_empty "   ").2.1 rfl).2,
    ((C5_total_and_empty "abc\t5\nxyz\t7").2.2
      [(⟨"abc", some "5"⟩ : RawRow), ⟨"xyz", some "7"⟩]
      rfl (by decide)).1,
    ((C5_total_and_empty "abc\t5\nxyz\t7").2.2
      [(⟨"abc", some "5"⟩ : RawRow), ⟨"xyz", some "7"⟩]
      rfl (by decide)).2⟩

/-- An all-blank field never parses as a number. -/
theorem parseNum_of_trim_empty {f : String} (h : (myTrim f.data).isEmpty = true) :
    parseNum f = none := by
  have hn : myTrim f.data = [] := by
    cases hc : myTrim f.data with
    | nil => rfl
    | cons c t => rw [hc] at h; cases h
  simp only [parseNum, hn]
  rfl

/-- Claim C6.  For every row of the input whose date parses and whose share
field passes numeric inference (on an input whose share column is numeric,
so that pandas does not fall back to an object column), the cleaned frame
stores exactly `n * 1,000,000` for that date (source line 79). -/
theorem C6_scaling (s : String) (rows : List RawRow)
    (hread : readCsv (strip s) = Except.ok rows)
    (hnumcol : colIsNumeric rows = true)
    (r : RawRow) (hr : r ∈ rows)
    (d : Nat) (hd : parseDate r.fecha = some d)
    (f : String) (hf : r.acciones = some f)
    (n : ℚ) (hn : parseNum f = some n) :
    (d, Cell.num (n * 1000000)) ∈ clean_data s := by
  have htr : (myTrim f.data).isEmpty = false := by
    cases hc : (myTrim f.data).isEmpty with
    | false => rfl
    | true =>
      exfalso
      have := parseNum_of_trim_empty hc
      rw [this] at hn
      cases hn
  have hcell : accionesCell (colIsNumeric rows) r.acciones = Cell.num n := by
    rw [hf, hnumcol]
    simp [accionesCell, htr, hn]
  have hgoal : clean_data s =
      ((rows.map (fun r2 => (parseDate r2.fecha,
          accionesCell (colIsNumeric rows) r2.acciones))).filterMap
        (fun p => match p.1 with | some d2 => some (d2, p.2) | none => none)).map
        (fun p => (p.1, scaleCell p.2)) := by
    unfold clean_data cleanDataCore
    rw [hread]
  rw [hgoal]
  apply List.mem_map.mpr
  refine ⟨(d, Cell.num n), ?_, rfl⟩
  apply List.mem_filterMap.mpr
  refine ⟨(some d, Cell.num n), ?_, rfl⟩
  apply List.mem_map.mpr
  refine ⟨r, hr, ?_⟩
  rw [hd, hcell]

/-- Witness for C6: the scenario row `2023-01-01 / 10` is stored as
`10 * 1,000,000` shares. -/
theorem C6_scaling_witness :
    ((738521 : Nat), Cell.num ((10 : ℚ) * 1000000)) ∈
      clean_data "2023-01-01\t10\n2023-01-03\t20" :=
  C6_scaling "2023-01-01\t10\n2023-01-03\t20"
    [(⟨"2023-01-01", some "10"⟩ : RawRow), ⟨"2023-01-03", some "20"⟩]
    rfl (by decide)
    ⟨"2023-01-01", some "10"⟩ (List.mem_cons_self _ _)
    738521 (by decide) "10" rfl 10 (by decide)

/-- Claim C7 (code bug).  At the failing input `2023-01-01<TAB>abc` the code signals no
parsing failure: `clean_data` keeps the row (so the caller's guard happily
proceeds), and the stored share value is a Python string — `'abc'`
repeated a million times by source line 79 — not a number and not `NaN`. -/
theorem C7_malformed_numeric_silent :
    (clean_data "2023-01-01\tabc").map (fun p => (p.1, cellKind p.2)) =
      [(738521, CellKind.strK)] ∧
    proceedToPlot (clean_data "2023-01-01\tabc") = true :=
  ⟨by decide, by decide⟩
